import Mathlib

/-!
A shallow embedding of the core logic of the Paws & Tails front end
(`src/js/main.js`): the age parser (`Utils.parseAgeToWeeks`), the filter
engine (`FilterManager`), the paginator (`PaginationManager`) and the
price calculator (`OrderPage.getShippingCost` and the total computed in
`OrderPage.setupFormInteractions`), together with the configuration object
`APP_CONFIG`.  JavaScript strings are modelled as `String` / `List Char`;
JavaScript numbers are modelled as `Int` (all the arithmetic performed by
the program is integer arithmetic); a value that may be `undefined` or of
the wrong dynamic type is modelled as an `Option`.
-/

namespace PawsTails

/-! ## Character classes and JS string primitives -/

/-- The ASCII whitespace characters recognised by JavaScript `trim` and
`parseInt` (tab, LF, VT, FF, CR, space); the catalog data is ASCII, so the
additional Unicode space code points are irrelevant here. -/
def isJsSpace (c : Char) : Bool :=
  c.toNat = 32 || (9 ≤ c.toNat && c.toNat ≤ 13)

/-- Decimal digit, `0` to `9`. -/
def isDigitC (c : Char) : Bool :=
  48 ≤ c.toNat && c.toNat ≤ 57

/-- Hexadecimal digit, `0-9a-fA-F`. -/
def isHexC (c : Char) : Bool :=
  isDigitC c || (97 ≤ c.toNat && c.toNat ≤ 102) || (65 ≤ c.toNat && c.toNat ≤ 70)

/-- ASCII lower-casing of one character, as JavaScript `toLowerCase` acts on
the basic latin range: `A`–`Z` maps to `a`–`z`, everything else is fixed. -/
def lowerChar (c : Char) : Char :=
  if 65 ≤ c.toNat ∧ c.toNat ≤ 90 then Char.ofNat (c.toNat + 32) else c

/-- JavaScript `String.prototype.trim`: drop leading and trailing
whitespace. -/
def trimL (cs : List Char) : List Char :=
  (((cs.dropWhile isJsSpace).reverse.dropWhile isJsSpace)).reverse

/-- JavaScript `String.prototype.split(' ')`: split on each occurrence of
the single space character.  `split` never yields the empty list: an input
with no separator yields the one-element list of the whole input. -/
def splitSpace : List Char → List (List Char)
  | [] => [[]]
  | c :: cs =>
    if c = ' ' then [] :: splitSpace cs
    else
      match splitSpace cs with
      | t :: ts => (c :: t) :: ts
      | [] => [[c]]

/-- Does `needle` occur at the start of `hay`? -/
def startsWithL : List Char → List Char → Bool
  | [], _ => true
  | _ :: _, [] => false
  | a :: as, b :: bs => a = b && startsWithL as bs

/-- JavaScript `String.prototype.includes`: does `needle` occur as a
contiguous run inside `hay`? -/
def includesL : List Char → List Char → Bool
  | [], needle => needle.isEmpty
  | c :: t, needle => startsWithL needle (c :: t) || includesL t needle

/-- Value of a list of decimal digits, most significant first. -/
def decValue (ds : List Char) : Nat :=
  ds.foldl (fun a c => a * 10 + (c.toNat - 48)) 0

/-- Value of one hexadecimal digit. -/
def hexDigitVal (c : Char) : Nat :=
  if c.toNat ≤ 57 then c.toNat - 48
  else if 97 ≤ c.toNat then c.toNat - 87
  else c.toNat - 55

/-- Value of a list of hexadecimal digits, most significant first. -/
def hexValue (ds : List Char) : Nat :=
  ds.foldl (fun a c => a * 16 + hexDigitVal c) 0

/-- The leading decimal-digit run of `cs` interpreted as a number, or
`none` when `cs` does not start with a digit (JavaScript returns `NaN`
there). -/
def decParse (cs : List Char) : Option Nat :=
  let ds := cs.takeWhile isDigitC
  if ds.isEmpty then none else some (decValue ds)

/-- The unsigned part of JavaScript `parseInt` with no radix argument: a
`0x`/`0X` prefixed input is read as hexadecimal, anything else as the
leading run of decimal digits. -/
def parseUnsigned (cs : List Char) : Option Nat :=
  match cs with
  | c0 :: c1 :: rest =>
    if c0 = '0' ∧ (c1 = 'x' ∨ c1 = 'X') then
      let ds := rest.takeWhile isHexC
      if ds.isEmpty then none else some (hexValue ds)
    else decParse cs
  | _ => decParse cs

/-- The sign step of JavaScript `parseInt`: an optional single `-` or `+`
before the digits. -/
def parseSigned : List Char → Option Int
  | [] => none
  | c :: r =>
    if c = '-' then (parseUnsigned r).map (fun n => -(n : Int))
    else if c = '+' then (parseUnsigned r).map (fun n => (n : Int))
    else (parseUnsigned (c :: r)).map (fun n => (n : Int))

/-- JavaScript `parseInt(s)` (radix argument omitted): skip leading
whitespace, read an optional sign, then the leading digit run; `none`
models the `NaN` result. -/
def parseIntL (cs : List Char) : Option Int :=
  parseSigned (cs.dropWhile isJsSpace)

/-! ## APP_CONFIG -/

/-- `APP_CONFIG.pagination.itemsPerPage`. -/
def itemsPerPage : Nat := 10

/-- `APP_CONFIG.pagination.maxVisiblePages`. -/
def maxVisiblePages : Nat := 5

/-- The property names that every plain JavaScript object literal inherits
from `Object.prototype`.  Reading one of these keys on `APP_CONFIG.shipping`
or `APP_CONFIG.ageRanges` does not give `undefined`: it gives the inherited
member (a function, or `Object.prototype` itself for `__proto__`), and every
one of these values is truthy. -/
def protoKeys : List String :=
  ["constructor", "hasOwnProperty", "isPrototypeOf", "propertyIsEnumerable",
   "toLocaleString", "toString", "valueOf",
   "__defineGetter__", "__defineSetter__", "__lookupGetter__",
   "__lookupSetter__", "__proto__"]

/-- The own properties of the `APP_CONFIG.shipping` object literal:
`pickup` costs 0, `standard` 150, `handDelivery` 350. -/
def shippingMap (option : String) : Option Int :=
  if option = "pickup" then some 0
  else if option = "standard" then some 150
  else if option = "handDelivery" then some 350
  else none

/-- The possible results of the JavaScript property read
`APP_CONFIG.shipping[option]`. -/
inductive ShippingLookup where
  /-- An own key: the stored numeric cost. -/
  | own (c : Int)
  /-- A key found on `Object.prototype`: a truthy non-numeric value. -/
  | inherited
  /-- An absent key: `undefined`. -/
  | absent
deriving DecidableEq

/-- `APP_CONFIG.shipping[option]`: an own key yields its cost, an
`Object.prototype` key yields the inherited (truthy, non-numeric) member,
anything else is `undefined`. -/
def shippingMapLookup (option : String) : ShippingLookup :=
  match shippingMap option with
  | some c => .own c
  | none => if option ∈ protoKeys then .inherited else .absent

/-- One named age range of `APP_CONFIG.ageRanges`: a closed interval in
weeks. -/
structure AgeRange where
  min : Int
  max : Int
deriving DecidableEq

/-- The own properties of the `APP_CONFIG.ageRanges` object literal:
`8-12 weeks` is `[8, 12]` and `3-6 months` is `[12, 24]`, in weeks. -/
def ageRanges (key : String) : Option AgeRange :=
  if key = "8-12 weeks" then some ⟨8, 12⟩
  else if key = "3-6 months" then some ⟨12, 24⟩
  else none

/-- The possible results of the JavaScript property read
`APP_CONFIG.ageRanges[ageFilter]`. -/
inductive AgeRangeLookup where
  /-- An own key: the stored range object. -/
  | range (r : AgeRange)
  /-- A key found on `Object.prototype`: a truthy value with no `min` or
  `max` properties. -/
  | inherited
  /-- An absent key: `undefined`. -/
  | absent
deriving DecidableEq

/-- `APP_CONFIG.ageRanges[key]`: an own key yields its range object, an
`Object.prototype` key yields the inherited truthy member, anything else
is `undefined`. -/
def ageRangesLookup (key : String) : AgeRangeLookup :=
  match ageRanges key with
  | some r => .range r
  | none => if key ∈ protoKeys then .inherited else .absent

/-! ## Utils.parseAgeToWeeks -/

/-- The characters of `"week"`. -/
def weekL : List Char := ['w', 'e', 'e', 'k']

/-- The characters of `"month"`. -/
def monthL : List Char := ['m', 'o', 'n', 't', 'h']

/-- `Utils.parseAgeToWeeks` (src/js/main.js lines 30-48).  The argument is
`none` when the JavaScript value is missing or not a string (the
`typeof ageString !== 'string'` guard); the empty string is rejected by the
same guard because it is falsy.  The string is trimmed, lower-cased and
split on the space character; the first token goes through `parseInt` and
the second is searched for `week` / `month`; every failure returns 0. -/
def parseAgeToWeeks (ageString : Option String) : Int :=
  match ageString with
  | none => 0
  | some s =>
    if s.data = [] then 0
    else
      match splitSpace ((trimL s.data).map lowerChar) with
      | t0 :: t1 :: _ =>
        match parseIntL t0 with
        | none => 0
        | some v =>
          if includesL t1 weekL then v
          else if includesL t1 monthL then v * 4
          else 0
      | _ => 0

/-! ## FilterManager -/

/-- One puppy record of the catalog (`puppies` in the data file). -/
structure Puppy where
  id : String
  name : String
  breed : String
  age : String
  gender : String
  price : Int
  description : String
  vaccinations : String
  image : String
deriving DecidableEq

/-- The filter values read from the three select elements by
`FilterManager.getActiveFilters`; a missing element reads as `"all"`. -/
structure FilterCriteria where
  breed : String
  age : String
  gender : String
deriving DecidableEq

/-- `FilterManager.matchesBreedFilter`: wildcard `all` or exact equality
on `breed`. -/
def matchesBreedFilter (puppy : Puppy) (breedFilter : String) : Bool :=
  breedFilter == "all" || puppy.breed == breedFilter

/-- `FilterManager.matchesAgeFilter` (src/js/main.js lines 143-152):
wildcard `all`; otherwise `APP_CONFIG.ageRanges[ageFilter]` is read.  An
absent key gives `undefined` and the `if (!ageRange) return true` branch
matches everything.  An `Object.prototype` key gives a truthy inherited
value, so that branch is skipped, `ageRange.min` and `ageRange.max` are
`undefined`, and `puppyAgeInWeeks >= undefined` is `false` (a NaN
comparison): every record is rejected.  An own key checks the closed
interval. -/
def matchesAgeFilter (puppy : Puppy) (ageFilter : String) : Bool :=
  if ageFilter == "all" then true
  else
    let puppyAgeInWeeks := parseAgeToWeeks (some puppy.age)
    match ageRangesLookup ageFilter with
    | .absent => true
    | .inherited => false
    | .range ageRange =>
      decide (ageRange.min ≤ puppyAgeInWeeks) && decide (puppyAgeInWeeks ≤ ageRange.max)

/-- `FilterManager.matchesGenderFilter`: wildcard `all` or exact equality
on `gender`. -/
def matchesGenderFilter (puppy : Puppy) (genderFilter : String) : Bool :=
  genderFilter == "all" || puppy.gender == genderFilter

/-- `FilterManager.applyFilters`: keep the records matching all three
predicates.  The criteria, read from the DOM by `getActiveFilters` in the
source, are passed explicitly here. -/
def applyFilters (puppies : List Puppy) (filters : FilterCriteria) : List Puppy :=
  puppies.filter fun puppy =>
    matchesBreedFilter puppy filters.breed &&
    matchesAgeFilter puppy filters.age &&
    matchesGenderFilter puppy filters.gender

/-! ## PaginationManager -/

/-- JavaScript `Array.prototype.slice(start, stop)`: a negative bound
counts from the end of the array, and the extracted range is clamped to
the array. -/
def jsSlice {α : Type} (items : List α) (start stop : Int) : List α :=
  let len : Int := items.length
  let s : Int := if start < 0 then max (len + start) 0 else min start len
  let e : Int := if stop < 0 then max (len + stop) 0 else min stop len
  (items.drop s.toNat).take (e - s).toNat

/-- `PaginationManager.getItemsForPage` (src/js/main.js lines 264-268):
`items.slice((page - 1) * itemsPerPage, (page - 1) * itemsPerPage +
itemsPerPage)`. -/
def getItemsForPage {α : Type} (items : List α) (page : Int) : List α :=
  jsSlice items ((page - 1) * (itemsPerPage : Int))
    ((page - 1) * (itemsPerPage : Int) + (itemsPerPage : Int))

/-- `Math.ceil(items.length / itemsPerPage)` computed by
`PaginationManager.render`. -/
def pageCount (itemCount : Nat) : Nat :=
  (itemCount + itemsPerPage - 1) / itemsPerPage

/-- The list of all pages, page 1 first, as produced by repeated
`getItemsForPage` calls over pages `1 .. pageCount`. -/
def pages {α : Type} (items : List α) : List (List α) :=
  (List.range (pageCount items.length)).map fun (i : Nat) =>
    getItemsForPage items ((i : Int) + 1)

/-- The first visible page number of the navigation window
(src/js/main.js line 199): `Math.max(1, this.currentPage - 2)`. -/
def startPage (currentPage : Int) : Int :=
  max 1 (currentPage - 2)

/-- The last visible page number of the navigation window
(src/js/main.js line 200): `Math.min(pageCount, startPage + 4)`. -/
def endPage (currentPage pc : Int) : Int :=
  min pc (startPage currentPage + 4)

/-! ## OrderPage -/

/-- The value of the JavaScript expression
`APP_CONFIG.shipping[option] || 0`: either a number, or the truthy
inherited `Object.prototype` member that `||` keeps unchanged. -/
inductive ShippingResult where
  /-- A numeric shipping cost. -/
  | cost (c : Int)
  /-- The inherited non-numeric member, kept because it is truthy. -/
  | inherited
deriving DecidableEq

/-- `OrderPage.getShippingCost` (src/js/main.js lines 698-700):
`APP_CONFIG.shipping[option] || 0`.  An absent key gives `undefined`,
which `|| 0` turns into 0; the stored cost 0 of `pickup` is falsy and
`|| 0` keeps it 0 as well; an `Object.prototype` key gives the inherited
member, which is truthy, so `|| 0` returns it as-is. -/
def getShippingCost (option : String) : ShippingResult :=
  match shippingMapLookup option with
  | .own c => if c = 0 then .cost 0 else .cost c
  | .inherited => .inherited
  | .absent => .cost 0

/-- The value of `this.selectedPuppy.price + shippingCost`: a number, or
the string produced when a non-numeric addend is concatenated. -/
inductive OrderTotal where
  /-- A numeric total. -/
  | num (n : Int)
  /-- A non-numeric result: adding the inherited function or object to the
  price performs string concatenation in JavaScript. -/
  | nonNumeric
deriving DecidableEq

/-- The order total computed in `OrderPage.setupFormInteractions`
(src/js/main.js line 681): `this.selectedPuppy.price + shippingCost`.
When the shipping cost is the inherited non-numeric member, `+` coerces
it to a string and concatenates, so the result is not a number. -/
def orderTotal (puppy : Puppy) (option : String) : OrderTotal :=
  match getShippingCost option with
  | .cost c => .num (puppy.price + c)
  | .inherited => .nonNumeric

/-! ## Character-level lemmas -/

theorem char_toNat_ofNat {n : Nat} (h : n < 55296) : (Char.ofNat n).toNat = n := by
  have hv : n.isValidChar := Or.inl h
  rw [Char.ofNat, dif_pos hv]
  simp [Char.ofNatAux, Char.toNat, UInt32.toNat, BitVec.toNat_ofNatLt]

theorem lowerChar_toNat (c : Char) :
    (lowerChar c).toNat = if 65 ≤ c.toNat ∧ c.toNat ≤ 90 then c.toNat + 32 else c.toNat := by
  unfold lowerChar
  split
  · next h => exact char_toNat_ofNat (by omega)
  · rfl

theorem char_eq_iff_toNat {c d : Char} : c = d ↔ c.toNat = d.toNat := by
  constructor
  · intro h; rw [h]
  · intro h
    rw [← Char.ofNat_toNat c, ← Char.ofNat_toNat d, h]

theorem isDigitC_not_space {c : Char} (h : isDigitC c = true) : isJsSpace c = false := by
  unfold isDigitC at h
  unfold isJsSpace
  simp only [Bool.and_eq_true, decide_eq_true_eq] at h
  simp only [Bool.or_eq_false_iff, Bool.and_eq_false_iff, decide_eq_false_iff_not]
  omega

theorem lowerChar_digit {c : Char} (h : isDigitC c = true) : lowerChar c = c := by
  unfold isDigitC at h
  simp only [Bool.and_eq_true, decide_eq_true_eq] at h
  unfold lowerChar
  rw [if_neg (by omega)]

theorem lowerChar_space_iff {c : Char} : lowerChar c = ' ' ↔ c = ' ' := by
  constructor
  · intro h
    have := congrArg Char.toNat h
    rw [lowerChar_toNat] at this
    have hsp : (' ' : Char).toNat = 32 := by decide
    rw [hsp] at this
    split at this
    · omega
    · exact char_eq_iff_toNat.mpr (by omega)
  · intro h; subst h; decide

theorem lowerChar_not_space {c : Char} (h : isJsSpace c = false) :
    isJsSpace (lowerChar c) = false := by
  unfold isJsSpace at *
  simp only [Bool.or_eq_false_iff, Bool.and_eq_false_iff, decide_eq_false_iff_not] at *
  rw [lowerChar_toNat]
  split <;> omega

theorem isJsSpace_false_ne_space {c : Char} (h : isJsSpace c = false) : c ≠ ' ' := by
  intro he
  subst he
  simp [isJsSpace] at h

theorem isDigitC_toNat {c : Char} (h : isDigitC c = true) :
    48 ≤ c.toNat ∧ c.toNat ≤ 57 := by
  unfold isDigitC at h
  simp only [Bool.and_eq_true, decide_eq_true_eq] at h
  exact h

/-! ## List-level lemmas about the JS string primitives -/

theorem dropWhile_cons_false {p : Char → Bool} {c : Char} (l : List Char)
    (h : p c = false) : (c :: l).dropWhile p = c :: l := by
  simp [List.dropWhile_cons, h]

theorem trimL_two_tokens {t0 u : List Char}
    (h0ne : t0 ≠ []) (h0 : ∀ c ∈ t0, isJsSpace c = false)
    (hune : u ≠ []) (hu : ∀ c ∈ u, isJsSpace c = false) :
    trimL (t0 ++ ' ' :: u) = t0 ++ ' ' :: u := by
  unfold trimL
  obtain ⟨c0, t0', rfl⟩ := List.exists_cons_of_ne_nil h0ne
  rw [List.cons_append, dropWhile_cons_false _ (h0 c0 (by simp))]
  obtain ⟨cu, u', hur⟩ := List.exists_cons_of_ne_nil (l := u.reverse) (by simpa using hune)
  have hcu : cu ∈ u := by
    rw [← List.mem_reverse, hur]; simp
  have hrev : (c0 :: (t0' ++ ' ' :: u)).reverse
      = cu :: (u' ++ ' ' :: (t0'.reverse ++ [c0])) := by
    simp [hur, List.append_assoc]
  rw [hrev, dropWhile_cons_false _ (hu cu hcu), ← hrev]
  simp

theorem splitSpace_cons_space (cs : List Char) :
    splitSpace (' ' :: cs) = [] :: splitSpace cs := rfl

theorem splitSpace_cons_of_ne (c : Char) (cs : List Char) (h : ¬(c = ' ')) :
    splitSpace (c :: cs) =
      match splitSpace cs with
      | t :: ts => (c :: t) :: ts
      | [] => [[c]] := by
  conv_lhs => rw [splitSpace]
  rw [if_neg h]

theorem splitSpace_ne_nil (l : List Char) : splitSpace l ≠ [] := by
  cases l with
  | nil => simp [splitSpace]
  | cons c t =>
    by_cases h : c = ' '
    · subst h
      rw [splitSpace_cons_space]
      simp
    · rw [splitSpace_cons_of_ne c t h]
      split <;> simp

theorem splitSpace_no_space {l : List Char} (h : ∀ c ∈ l, c ≠ ' ') :
    splitSpace l = [l] := by
  induction l with
  | nil => rfl
  | cons c t ih =>
    rw [splitSpace_cons_of_ne c t (h c (by simp)),
      ih (fun d hd => h d (by simp [hd]))]

theorem splitSpace_append {a : List Char} (b : List Char)
    (h : ∀ c ∈ a, c ≠ ' ') :
    splitSpace (a ++ ' ' :: b) = a :: splitSpace b := by
  induction a with
  | nil => simpa using splitSpace_cons_space b
  | cons c t ih =>
    rw [List.cons_append, splitSpace_cons_of_ne c _ (h c (by simp)),
      ih (fun d hd => h d (by simp [hd]))]

theorem takeWhile_all_append {p : Char → Bool} {a : List Char} (b : List Char)
    (ha : ∀ c ∈ a, p c = true) (hb : b.takeWhile p = []) :
    (a ++ b).takeWhile p = a := by
  induction a with
  | nil => simpa using hb
  | cons c t ih =>
    rw [List.cons_append, List.takeWhile_cons, if_pos (ha c (by simp))]
    rw [ih (fun c hc => ha c (by simp [hc]))]

theorem takeWhile_all {p : Char → Bool} {a : List Char}
    (ha : ∀ c ∈ a, p c = true) : a.takeWhile p = a := by
  have := takeWhile_all_append (p := p) [] ha (by simp)
  simpa using this

/-! ## parseInt lemmas -/

theorem parseSigned_cons (c : Char) (r : List Char) :
    parseSigned (c :: r) =
      if c = '-' then (parseUnsigned r).map (fun n => -(n : Int))
      else if c = '+' then (parseUnsigned r).map (fun n => (n : Int))
      else (parseUnsigned (c :: r)).map (fun n => (n : Int)) := rfl

theorem parseUnsigned_two (c0 c1 : Char) (rest : List Char) :
    parseUnsigned (c0 :: c1 :: rest) =
      if c0 = '0' ∧ (c1 = 'x' ∨ c1 = 'X') then
        let ds := rest.takeWhile isHexC
        if ds.isEmpty then none else some (hexValue ds)
      else decParse (c0 :: c1 :: rest) := rfl

theorem parseUnsigned_one (c : Char) : parseUnsigned [c] = decParse [c] := rfl

theorem decParse_append {ds t : List Char} (hne : ds ≠ [])
    (hd : ∀ c ∈ ds, isDigitC c = true) (ht : t.takeWhile isDigitC = []) :
    decParse (ds ++ t) = some (decValue ds) := by
  unfold decParse
  rw [takeWhile_all_append t hd ht]
  rw [if_neg (by simpa using hne)]

theorem parseUnsigned_append {ds t : List Char} (hne : ds ≠ [])
    (hd : ∀ c ∈ ds, isDigitC c = true) (ht : t.takeWhile isDigitC = [])
    (hhex : ∀ c1 t', t = c1 :: t' → ds = ['0'] → ¬(c1 = 'x' ∨ c1 = 'X')) :
    parseUnsigned (ds ++ t) = some (decValue ds) := by
  have hdec := decParse_append hne hd ht
  obtain ⟨d, ds', rfl⟩ := List.exists_cons_of_ne_nil hne
  cases ds' with
  | nil =>
    cases t with
    | nil => simpa using hdec
    | cons c1 t' =>
      rw [List.singleton_append, parseUnsigned_two]
      rw [if_neg (by
        rintro ⟨hc0, hc1⟩
        exact hhex c1 t' rfl (by rw [hc0]) hc1)]
      simpa using hdec
  | cons d1 ds'' =>
    rw [List.cons_append, List.cons_append, parseUnsigned_two]
    rw [if_neg (by
      rintro ⟨-, hc1⟩
      have hd1 : isDigitC d1 = true := hd d1 (by simp)
      rcases hc1 with h | h <;> subst h <;> simp [isDigitC] at hd1)]
    simpa using hdec

theorem parseIntL_append {ds t : List Char} (hne : ds ≠ [])
    (hd : ∀ c ∈ ds, isDigitC c = true) (ht : t.takeWhile isDigitC = [])
    (hhex : ∀ c1 t', t = c1 :: t' → ds = ['0'] → ¬(c1 = 'x' ∨ c1 = 'X')) :
    parseIntL (ds ++ t) = some ((decValue ds : Int)) := by
  obtain ⟨d, ds', rfl⟩ := List.exists_cons_of_ne_nil hne
  have hdd : isDigitC d = true := hd d (by simp)
  have hds : (48 ≤ d.toNat ∧ d.toNat ≤ 57) := isDigitC_toNat hdd
  unfold parseIntL
  rw [List.cons_append, dropWhile_cons_false _ (isDigitC_not_space hdd), parseSigned_cons]
  rw [if_neg (by
    intro he
    rw [char_eq_iff_toNat] at he
    have hm : ('-' : Char).toNat = 45 := by decide
    omega)]
  rw [if_neg (by
    intro he
    rw [char_eq_iff_toNat] at he
    have hp : ('+' : Char).toNat = 43 := by decide
    omega)]
  rw [← List.cons_append, parseUnsigned_append hne hd ht hhex]
  rfl

theorem parseIntL_digits {ds : List Char} (hne : ds ≠ [])
    (hd : ∀ c ∈ ds, isDigitC c = true) :
    parseIntL ds = some ((decValue ds : Int)) := by
  have h := parseIntL_append (t := []) hne hd (by simp) (by intro c1 t' h; simp at h)
  simpa using h

/-! ## The two-token shape of an age string -/

theorem map_lowerChar_no_space {l : List Char} (h : ∀ c ∈ l, isJsSpace c = false) :
    ∀ c ∈ l.map lowerChar, c ≠ ' ' := by
  intro c hc
  obtain ⟨d, hd, rfl⟩ := List.mem_map.mp hc
  intro he
  exact isJsSpace_false_ne_space (h d hd) (lowerChar_space_iff.mp he)

theorem parseAgeToWeeks_two_tokens {t0 u : List Char}
    (h0ne : t0 ≠ []) (h0 : ∀ c ∈ t0, isJsSpace c = false)
    (hune : u ≠ []) (hu : ∀ c ∈ u, isJsSpace c = false) :
    parseAgeToWeeks (some (String.mk (t0 ++ ' ' :: u))) =
      match parseIntL (t0.map lowerChar) with
      | none => 0
      | some v =>
        if includesL (u.map lowerChar) weekL then v
        else if includesL (u.map lowerChar) monthL then v * 4
        else 0 := by
  simp only [parseAgeToWeeks]
  rw [if_neg (by simp)]
  rw [trimL_two_tokens h0ne h0 hune hu]
  have hmap : (t0 ++ ' ' :: u).map lowerChar
      = t0.map lowerChar ++ ' ' :: u.map lowerChar := by
    have hsp : lowerChar ' ' = ' ' := by decide
    rw [List.map_append, List.map_cons, hsp]
  rw [hmap]
  rw [splitSpace_append _ (map_lowerChar_no_space h0)]
  rw [splitSpace_no_space (map_lowerChar_no_space hu)]

/-! ## Claim C3: the age parser -/

theorem map_lowerChar_digits {ds : List Char} (hd : ∀ c ∈ ds, isDigitC c = true) :
    ds.map lowerChar = ds := by
  induction ds with
  | nil => rfl
  | cons c t ih =>
    rw [List.map_cons, lowerChar_digit (hd c (by simp)),
      ih (fun d hd2 => hd d (by simp [hd2]))]

theorem digits_not_space {ds : List Char} (hd : ∀ c ∈ ds, isDigitC c = true) :
    ∀ c ∈ ds, isJsSpace c = false :=
  fun c hc => isDigitC_not_space (hd c hc)

theorem parseAgeToWeeks_parts {s : String} {t0 t1 : List Char} {rest : List (List Char)}
    (hne : ¬(s.data = []))
    (hsp : splitSpace ((trimL s.data).map lowerChar) = t0 :: t1 :: rest) :
    parseAgeToWeeks (some s) =
      match parseIntL t0 with
      | none => 0
      | some v =>
        if includesL t1 weekL then v
        else if includesL t1 monthL then v * 4
        else 0 := by
  simp only [parseAgeToWeeks, if_neg hne, hsp]

theorem parseAgeToWeeks_short {s : String}
    (hlen : (splitSpace ((trimL s.data).map lowerChar)).length < 2) :
    parseAgeToWeeks (some s) = 0 := by
  by_cases hd : s.data = []
  · simp only [parseAgeToWeeks, if_pos hd]
  · rcases hsp : splitSpace ((trimL s.data).map lowerChar) with _ | ⟨t0, _ | ⟨t1, rest⟩⟩
    · exact absurd hsp (splitSpace_ne_nil _)
    · simp only [parseAgeToWeeks, if_neg hd, hsp]
    · rw [hsp] at hlen
      simp only [List.length_cons] at hlen
      omega

theorem data_ne_of_two_tokens {s : String} {t0 t1 : List Char}
    {rest : List (List Char)}
    (hsp : splitSpace ((trimL s.data).map lowerChar) = t0 :: t1 :: rest) :
    ¬(s.data = []) := by
  intro hd
  rw [hd] at hsp
  simp [trimL, splitSpace] at hsp

/-- C3 (amended): a valid `N weeks` string (digit token, then a unit token
containing `week`) parses to N; a unit token containing `month` but not
`week` parses to N * 4; missing or non-string input, input with fewer than
two tokens, a non-numeric first token and an unrecognized unit all give 0
rather than an error. -/
theorem ageParser_weeks_months :
    (∀ ds u : List Char, ds ≠ [] → (∀ c ∈ ds, isDigitC c = true) →
      u ≠ [] → (∀ c ∈ u, isJsSpace c = false) →
      includesL (u.map lowerChar) weekL = true →
      parseAgeToWeeks (some (String.mk (ds ++ ' ' :: u))) = (decValue ds : Int)) ∧
    (∀ ds u : List Char, ds ≠ [] → (∀ c ∈ ds, isDigitC c = true) →
      u ≠ [] → (∀ c ∈ u, isJsSpace c = false) →
      includesL (u.map lowerChar) weekL = false →
      includesL (u.map lowerChar) monthL = true →
      parseAgeToWeeks (some (String.mk (ds ++ ' ' :: u))) = (decValue ds : Int) * 4) ∧
    parseAgeToWeeks none = 0 ∧
    parseAgeToWeeks (some "") = 0 ∧
    (∀ s : String, (splitSpace ((trimL s.data).map lowerChar)).length < 2 →
      parseAgeToWeeks (some s) = 0) ∧
    (∀ s : String, ∀ t0 t1 : List Char, ∀ rest : List (List Char),
      splitSpace ((trimL s.data).map lowerChar) = t0 :: t1 :: rest →
      parseIntL t0 = none → parseAgeToWeeks (some s) = 0) ∧
    (∀ s : String, ∀ t0 t1 : List Char, ∀ rest : List (List Char),
      splitSpace ((trimL s.data).map lowerChar) = t0 :: t1 :: rest →
      includesL t1 weekL = false → includesL t1 monthL = false →
      parseAgeToWeeks (some s) = 0) := by
  refine ⟨?_, ?_, rfl, rfl, fun s h => parseAgeToWeeks_short h, ?_, ?_⟩
  · intro ds u hne hd hune hu hweek
    rw [parseAgeToWeeks_two_tokens hne (digits_not_space hd) hune hu]
    rw [map_lowerChar_digits hd, parseIntL_digits hne hd]
    simp [hweek]
  · intro ds u hne hd hune hu hweek hmonth
    rw [parseAgeToWeeks_two_tokens hne (digits_not_space hd) hune hu]
    rw [map_lowerChar_digits hd, parseIntL_digits hne hd]
    simp [hweek, hmonth]
  · intro s t0 t1 rest hsp hint
    rw [parseAgeToWeeks_parts (data_ne_of_two_tokens hsp) hsp, hint]
  · intro s t0 t1 rest hsp hw hm
    rw [parseAgeToWeeks_parts (data_ne_of_two_tokens hsp) hsp]
    cases hv : parseIntL t0 with
    | none => rfl
    | some v => simp [hw, hm]

/-- C3 witness: the general statements applied at `12 weeks`, `3 months`,
and a short input. -/
theorem ageParser_weeks_months_witness :
    parseAgeToWeeks (some (String.mk ("12".data ++ ' ' :: "weeks".data)))
      = (decValue "12".data : Int) ∧
    parseAgeToWeeks (some (String.mk ("3".data ++ ' ' :: "months".data)))
      = (decValue "3".data : Int) * 4 ∧
    parseAgeToWeeks (some "11weeks") = 0 := by
  refine ⟨?_, ?_, ?_⟩
  · exact ageParser_weeks_months.1 "12".data "weeks".data (by decide) (by decide)
      (by decide) (by decide) (by decide)
  · exact ageParser_weeks_months.2.1 "3".data "months".data (by decide) (by decide)
      (by decide) (by decide) (by decide) (by decide)
  · exact ageParser_weeks_months.2.2.2.2.1 "11weeks" (by decide)

/-- C3 counterexample: the unit token `weekmonth` contains `month`, yet
`3 weekmonth` parses to 3 and not to 4 * 3, because the `week` test has
precedence over the `month` test. -/
theorem ageParser_month_counterexample :
    includesL ("weekmonth".data.map lowerChar) monthL = true ∧
    parseAgeToWeeks (some "3 weekmonth") = 3 ∧
    parseAgeToWeeks (some "3 weekmonth") ≠ 4 * 3 := by
  refine ⟨by decide, by decide, by decide⟩

/-! ## Claim C4: tokenization of the age string -/

/-- C4 (amended): the tokenizer splits on the single space character, so
tokens separated by one space parse normally, while a tab or a second
space defeats the split (the input then parses to 0); the first token is
read with leading-integer semantics, so a fractional or trailing
non-numeric suffix after the digits is discarded, as in `12.5` or `12wk`
both yielding 12. -/
theorem ageParser_tokenization :
    (∀ (ds : List Char) (c : Char) (t : List Char),
      ds ≠ [] → (∀ d ∈ ds, isDigitC d = true) →
      isJsSpace c = false → (∀ d ∈ t, isJsSpace d = false) →
      isDigitC (lowerChar c) = false → lowerChar c ≠ 'x' → lowerChar c ≠ 'X' →
      parseAgeToWeeks (some (String.mk (ds ++ (c :: t) ++ ' ' :: "weeks".data)))
        = (decValue ds : Int)) ∧
    parseAgeToWeeks (some "12.5 weeks") = 12 ∧
    parseAgeToWeeks (some "12wk weeks") = 12 ∧
    parseAgeToWeeks (some "12  weeks") = 0 ∧
    parseAgeToWeeks (some "12\tweeks") = 0 := by
  refine ⟨?_, by decide, by decide, by decide, by decide⟩
  intro ds c t hne hd hc ht hcd hx hX
  have h0 : ∀ d ∈ ds ++ c :: t, isJsSpace d = false := by
    intro d hmem
    rcases List.mem_append.mp hmem with h | h
    · exact digits_not_space hd d h
    · rcases List.mem_cons.mp h with rfl | h
      · exact hc
      · exact ht d h
  rw [parseAgeToWeeks_two_tokens (by simp [hne]) h0 (by decide) (by decide)]
  have hmap : (ds ++ c :: t).map lowerChar
      = ds ++ lowerChar c :: t.map lowerChar := by
    rw [List.map_append, List.map_cons, map_lowerChar_digits hd]
  rw [hmap]
  rw [parseIntL_append hne hd
    (by rw [List.takeWhile_cons, if_neg (by simp [hcd])])
    (by
      intro c1 t' heq hds
      rw [List.cons.injEq] at heq
      rcases heq with ⟨rfl, -⟩
      rintro (h | h)
      · exact hx h
      · exact hX h)]
  have hw : includesL ("weeks".data.map lowerChar) weekL = true := by decide
  simp only [hw]
  simp


/-- C4 witness: the suffix statement applied to the first token `12.5`. -/
theorem ageParser_tokenization_witness :
    parseAgeToWeeks (some (String.mk ("12".data ++ ('.' :: "5".data) ++ ' ' :: "weeks".data)))
      = (decValue "12".data : Int) := by
  exact ageParser_tokenization.1 "12".data '.' "5".data (by decide) (by decide)
    (by decide) (by decide) (by decide) (by decide) (by decide)

/-- C4 counterexample: two tokens separated by two spaces (or a tab) do not
parse like the same tokens separated by a single space, because the code
splits on the single space character rather than on general whitespace. -/
theorem ageParser_whitespace_counterexample :
    parseAgeToWeeks (some "12  weeks") = 0 ∧
    parseAgeToWeeks (some "12\tweeks") = 0 ∧
    parseAgeToWeeks (some "12 weeks") = 12 ∧
    parseAgeToWeeks (some "12  weeks") ≠ parseAgeToWeeks (some "12 weeks") := by
  refine ⟨by decide, by decide, by decide, by decide⟩


/-! ## Claims C1, C2, C7, C8, C9, C10: price, filter engine, page window -/

/-- Record `cc01` of the catalog data file, used as a concrete input. -/
def rocco : Puppy :=
  ⟨"cc01", "Rocco", "Cane Corso", "11 weeks", "Male", 1500,
   "Playful and affectionate, Rocco has a very good temperament, good with kids and other pets too.",
   "Up to date", "./Corso/Business Suite_creation_855328826572794.jpeg"⟩

/-- Record `st01` of the catalog data file, used as a concrete input. -/
def rocky : Puppy :=
  ⟨"st01", "Rocky", "Staffy", "12 weeks", "Male", 1200,
   "Energetic and brave, an excellent companion for an active family.",
   "Up to date", "./Staffy/Screenshot_20250805-002514.png"⟩

/-- C1 (amended): whenever the shipping lookup produces a number the order
total is the puppy price plus that surcharge (`pickup` 0, `standard` 150,
`handDelivery` 350); an option that is neither an own key of the shipping
map nor an inherited `Object.prototype` property name (the empty option
included) has surcharge 0, so the total then equals the price exactly; but
an inherited property name such as `toString` reads the truthy inherited
member, which `|| 0` keeps, and the total is then a non-numeric
concatenation rather than the price. -/
theorem price_total (p : Puppy) (opt : String) :
    getShippingCost "pickup" = .cost 0 ∧
    getShippingCost "standard" = .cost 150 ∧
    getShippingCost "handDelivery" = .cost 350 ∧
    getShippingCost "" = .cost 0 ∧
    (∀ c : Int, getShippingCost opt = .cost c → orderTotal p opt = .num (p.price + c)) ∧
    (shippingMapLookup opt = .absent →
      getShippingCost opt = .cost 0 ∧ orderTotal p opt = .num p.price) ∧
    (shippingMapLookup opt = .inherited → orderTotal p opt = .nonNumeric) := by
  refine ⟨by decide, by decide, by decide, by decide, ?_, ?_, ?_⟩
  · intro c hc
    unfold orderTotal
    rw [hc]
  · intro h
    have hc : getShippingCost opt = .cost 0 := by
      unfold getShippingCost
      rw [h]
    refine ⟨hc, ?_⟩
    unfold orderTotal
    rw [hc]
    simp
  · intro h
    have hc : getShippingCost opt = .inherited := by
      unfold getShippingCost
      rw [h]
    unfold orderTotal
    rw [hc]

/-- C1 witness: an unrecognized plain option and an inherited property
name on a concrete record. -/
theorem price_total_witness :
    (getShippingCost "express" = .cost 0 ∧ orderTotal rocco "express" = .num rocco.price) ∧
    orderTotal rocco "toString" = OrderTotal.nonNumeric :=
  ⟨(price_total rocco "express").2.2.2.2.2.1 (by decide),
   (price_total rocco "toString").2.2.2.2.2.2 (by decide)⟩

/-- C1 counterexample: `toString` is not one of the three delivery options,
yet its surcharge is not 0 and the total is not the puppy price: the
lookup hits the inherited `Object.prototype.toString`, which is truthy. -/
theorem price_total_proto_counterexample :
    shippingMap "toString" = none ∧
    getShippingCost "toString" ≠ ShippingResult.cost 0 ∧
    orderTotal rocco "toString" ≠ OrderTotal.num rocco.price := by
  refine ⟨by decide, by decide, by decide⟩

/-- C2: the filter engine returns exactly the records satisfying the
conjunction of the three predicates, as an order-preserving subsequence of
the catalog, with breed and gender matched by wildcard or exact
case-sensitive equality. -/
theorem filterEngine_spec (ps : List Puppy) (f : FilterCriteria) :
    List.Sublist (applyFilters ps f) ps ∧
    applyFilters ps f = ps.filter (fun p =>
      matchesBreedFilter p f.breed && matchesAgeFilter p f.age &&
      matchesGenderFilter p f.gender) ∧
    (∀ p : Puppy, p ∈ applyFilters ps f ↔ p ∈ ps ∧
      ((f.breed = "all" ∨ p.breed = f.breed) ∧
       matchesAgeFilter p f.age = true ∧
       (f.gender = "all" ∨ p.gender = f.gender))) := by
  refine ⟨List.filter_sublist _, rfl, ?_⟩
  intro p
  simp only [applyFilters, List.mem_filter, matchesBreedFilter, matchesGenderFilter,
    Bool.and_eq_true, Bool.or_eq_true, beq_iff_eq]
  tauto

/-- C8: filtering is idempotent: applying the same criteria to the
engine's own output changes nothing. -/
theorem filterEngine_idempotent (ps : List Puppy) (f : FilterCriteria) :
    applyFilters (applyFilters ps f) f = applyFilters ps f := by
  unfold applyFilters
  apply List.filter_eq_self.mpr
  intro p hp
  exact (List.mem_filter.mp hp).2

/-- C7 (amended): an age-bucket name whose lookup gives `undefined` — not
an own key of the configured age-range table and not an inherited
`Object.prototype` property name — filters exactly like the wildcard
`all`, for any breed and gender selection; but an inherited property name
such as `toString` reads a truthy value without `min`/`max` bounds, so the
undefined-bound comparisons are false and every record is rejected. -/
theorem unknownAgeBucket_wildcard (ps : List Puppy) (breed gender bucket : String) :
    (ageRangesLookup bucket = .absent →
      applyFilters ps ⟨breed, bucket, gender⟩ = applyFilters ps ⟨breed, "all", gender⟩) ∧
    (ageRangesLookup bucket = .inherited →
      applyFilters ps ⟨breed, bucket, gender⟩ = []) := by
  constructor
  · intro h
    unfold applyFilters
    congr 1
    funext p
    have h1 : matchesAgeFilter p bucket = true := by
      unfold matchesAgeFilter
      split
      · rfl
      · rw [h]
    have h2 : matchesAgeFilter p "all" = true := by
      unfold matchesAgeFilter
      rw [if_pos (by decide)]
    rw [h1, h2]
  · intro h
    have hb : (bucket == "all") = false := by
      by_cases hbe : bucket = "all"
      · subst hbe
        exact absurd h (by decide)
      · exact beq_eq_false_iff_ne.mpr hbe
    have h1 : ∀ p : Puppy, matchesAgeFilter p bucket = false := by
      intro p
      unfold matchesAgeFilter
      rw [if_neg (by simp [hb]), h]
    unfold applyFilters
    rw [List.filter_eq_nil_iff]
    intro p _
    simp [h1 p]

/-- C7 witness: the unrecognized bucket name `puppies` behaves as the
wildcard, while the inherited name `valueOf` rejects every record. -/
theorem unknownAgeBucket_wildcard_witness :
    applyFilters [rocco, rocky] ⟨"Cane Corso", "puppies", "Male"⟩
      = applyFilters [rocco, rocky] ⟨"Cane Corso", "all", "Male"⟩ ∧
    applyFilters [rocco, rocky] ⟨"Cane Corso", "valueOf", "Male"⟩ = [] :=
  ⟨(unknownAgeBucket_wildcard [rocco, rocky] "Cane Corso" "Male" "puppies").1 (by decide),
   (unknownAgeBucket_wildcard [rocco, rocky] "Cane Corso" "Male" "valueOf").2 (by decide)⟩

/-- C7 counterexample: `toString` is not a key of the configured age-range
table, yet filtering with it rejects every record instead of matching
everything like the wildcard. -/
theorem unknownAgeBucket_proto_counterexample :
    ageRanges "toString" = none ∧
    applyFilters [rocco] ⟨"all", "toString", "all"⟩ = [] ∧
    applyFilters [rocco] ⟨"all", "all", "all"⟩ = [rocco] ∧
    applyFilters [rocco] ⟨"all", "toString", "all"⟩
      ≠ applyFilters [rocco] ⟨"all", "all", "all"⟩ := by
  refine ⟨by decide, by decide, by decide, by decide⟩

theorem matchesAgeFilter_range {p : Puppy} {bucket : String} {r : AgeRange}
    (hb : (bucket == "all") = false) (hr : ageRanges bucket = some r) :
    matchesAgeFilter p bucket =
      (decide (r.min ≤ parseAgeToWeeks (some p.age)) &&
       decide (parseAgeToWeeks (some p.age) ≤ r.max)) := by
  have hlk : ageRangesLookup bucket = .range r := by
    unfold ageRangesLookup
    rw [hr]
  unfold matchesAgeFilter
  rw [if_neg (by simp [hb]), hlk]

/-- C10: the two configured buckets are the closed intervals [8, 12] and
[12, 24] in weeks, which overlap at exactly 12: every record whose age
parses to 12 weeks matches both buckets, and both `12 weeks` and
`3 months` parse to 12. -/
theorem ageBuckets_overlap_at_12 :
    ageRanges "8-12 weeks" = some ⟨8, 12⟩ ∧
    ageRanges "3-6 months" = some ⟨12, 24⟩ ∧
    (∀ p : Puppy, parseAgeToWeeks (some p.age) = 12 →
      matchesAgeFilter p "8-12 weeks" = true ∧
      matchesAgeFilter p "3-6 months" = true) ∧
    parseAgeToWeeks (some "12 weeks") = 12 ∧
    parseAgeToWeeks (some "3 months") = 12 := by
  refine ⟨by decide, by decide, ?_, by decide, by decide⟩
  intro p hp
  constructor
  · rw [matchesAgeFilter_range (by decide) (show ageRanges "8-12 weeks" = some ⟨8, 12⟩ by decide), hp]
    decide
  · rw [matchesAgeFilter_range (by decide) (show ageRanges "3-6 months" = some ⟨12, 24⟩ by decide), hp]
    decide

/-- C10 witness: record `st01` has age `12 weeks` and matches both
buckets. -/
theorem ageBuckets_overlap_at_12_witness :
    matchesAgeFilter rocky "8-12 weeks" = true ∧
    matchesAgeFilter rocky "3-6 months" = true :=
  ageBuckets_overlap_at_12.2.2.1 rocky (by decide)

/-- C9: for more than one page, the navigation window runs from
`max 1 (currentPage - 2)` to `min pageCount (start + 4)`: it stays within
`[1, pageCount]` and shows at most `maxVisiblePages = 5` page numbers. -/
theorem pageWindow_bounds (cur pc : Int) (_hpc : 1 < pc) :
    startPage cur = max 1 (cur - 2) ∧
    endPage cur pc = min pc (startPage cur + 4) ∧
    1 ≤ startPage cur ∧
    endPage cur pc ≤ pc ∧
    endPage cur pc - startPage cur + 1 ≤ (maxVisiblePages : Int) := by
  refine ⟨rfl, rfl, ?_, ?_, ?_⟩ <;>
  · simp only [startPage, endPage, maxVisiblePages]
    omega

/-- C9 witness: the window at page 3 of 5. -/
theorem pageWindow_bounds_witness :
    1 ≤ startPage 3 ∧ endPage 3 5 ≤ 5 ∧
    endPage 3 5 - startPage 3 + 1 ≤ (maxVisiblePages : Int) := by
  have h := pageWindow_bounds 3 5 (by norm_num)
  exact ⟨h.2.2.1, h.2.2.2.1, h.2.2.2.2⟩


/-! ## Pagination lemmas -/

theorem drop_min_len {α : Type} (items : List α) (a : Nat) :
    items.drop (min a items.length) = items.drop a := by
  rcases Nat.le_total a items.length with h | h
  · rw [Nat.min_eq_left h]
  · rw [Nat.min_eq_right h, List.drop_eq_nil_of_le (Nat.le_refl _),
      List.drop_eq_nil_of_le h]

theorem take_congr_min {α : Type} (l : List α) (i j : Nat)
    (h : min i l.length = min j l.length) : l.take i = l.take j := by
  induction l generalizing i j with
  | nil => simp
  | cons c t ih =>
    cases i with
    | zero =>
      cases j with
      | zero => rfl
      | succ j => simp only [List.length_cons] at h; omega
    | succ i =>
      cases j with
      | zero => simp only [List.length_cons] at h; omega
      | succ j =>
        simp only [List.take_succ_cons]
        rw [ih i j (by simp only [List.length_cons] at h; omega)]

theorem jsSlice_nat {α : Type} (items : List α) (a b : Nat) :
    jsSlice items (a : Int) (b : Int) = (items.drop a).take (b - a) := by
  simp only [jsSlice]
  have ha : ¬((a : Int) < 0) := by omega
  have hb : ¬((b : Int) < 0) := by omega
  rw [if_neg ha, if_neg hb]
  have h1 : (min (a : Int) (items.length : Int)).toNat = min a items.length := by omega
  have h2 : (min (b : Int) (items.length : Int) - min (a : Int) (items.length : Int)).toNat
      = min b items.length - min a items.length := by omega
  rw [h1, h2, drop_min_len]
  apply take_congr_min
  simp only [List.length_drop]
  omega

theorem getItemsForPage_pos {α : Type} (items : List α) (page : Int) (h : 1 ≤ page) :
    getItemsForPage items page
      = (items.drop ((page.toNat - 1) * itemsPerPage)).take itemsPerPage := by
  have ha : (page - 1) * (itemsPerPage : Int)
      = (((page.toNat - 1) * itemsPerPage : Nat) : Int) := by
    simp only [itemsPerPage]
    omega
  have hb : ((((page.toNat - 1) * itemsPerPage : Nat) : Int)) + (itemsPerPage : Int)
      = (((page.toNat - 1) * itemsPerPage + itemsPerPage : Nat) : Int) := by
    push_cast
    ring
  unfold getItemsForPage
  rw [ha, hb, jsSlice_nat]
  congr 1
  omega

theorem getItemsForPage_nat {α : Type} (items : List α) (i : Nat) :
    getItemsForPage items ((i : Int) + 1)
      = (items.drop (i * itemsPerPage)).take itemsPerPage := by
  rw [getItemsForPage_pos items ((i : Int) + 1) (by omega)]
  have hx : (((i : Int) + 1).toNat - 1) * itemsPerPage = i * itemsPerPage := by
    have h1 : ((i : Int) + 1).toNat = i + 1 := by omega
    rw [h1, Nat.add_sub_cancel]
  rw [hx]

theorem pages_join {α : Type} : ∀ (n : Nat) (items : List α), items.length = n →
    (pages items).flatten = items := by
  intro n
  induction n using Nat.strong_induction_on with
  | _ n ih =>
    intro items hlen
    by_cases h0 : items.length = 0
    · have h1 : items = [] := List.length_eq_zero.mp h0
      subst h1
      norm_num [pages, pageCount, itemsPerPage]
    · by_cases h10 : items.length ≤ 10
      · have hpc : pageCount items.length = 1 := by
          unfold pageCount itemsPerPage
          omega
        unfold pages
        rw [hpc]
        have hr1 : List.range 1 = [0] := rfl
        rw [hr1]
        simp only [List.map_cons, List.map_nil, List.flatten_cons, List.flatten_nil,
          List.append_nil]
        rw [getItemsForPage_nat items 0]
        simp only [Nat.zero_mul, List.drop_zero]
        exact List.take_of_length_le (by simpa [itemsPerPage] using h10)
      · have hpc : pageCount items.length = pageCount (items.length - 10) + 1 := by
          unfold pageCount itemsPerPage
          omega
        have hlen' : (items.drop itemsPerPage).length = items.length - 10 := by
          simp [itemsPerPage]
        unfold pages
        rw [hpc, List.range_succ_eq_map]
        simp only [List.map_cons, List.map_map, Function.comp_def]
        have hshift : ∀ i : Nat,
            getItemsForPage items (((i.succ : Nat) : Int) + 1)
              = getItemsForPage (items.drop itemsPerPage) ((i : Int) + 1) := by
          intro i
          rw [getItemsForPage_nat items i.succ,
            getItemsForPage_nat (items.drop itemsPerPage) i, List.drop_drop]
          have hm : (i.succ) * itemsPerPage = itemsPerPage + i * itemsPerPage := by
            simp only [Nat.succ_eq_add_one]
            ring
          rw [hm]
        have htail : (List.range (pageCount (items.length - 10))).map
              (fun (i : Nat) => getItemsForPage items (((i.succ : Nat) : Int) + 1))
            = (List.range (pageCount (items.length - 10))).map
              (fun (i : Nat) => getItemsForPage (items.drop itemsPerPage) ((i : Int) + 1)) := by
          apply List.map_congr_left
          intro i _
          exact hshift i
        rw [htail]
        have hfold : (List.range (pageCount (items.length - 10))).map
              (fun (i : Nat) => getItemsForPage (items.drop itemsPerPage) ((i : Int) + 1))
            = pages (items.drop itemsPerPage) := by
          unfold pages
          rw [hlen']
        rw [hfold, List.flatten_cons]
        rw [ih (items.length - 10) (by omega) (items.drop itemsPerPage) hlen']
        rw [getItemsForPage_nat items 0]
        simp only [Nat.zero_mul, List.drop_zero]
        exact List.take_append_drop itemsPerPage items


/-! ## Claims C5, C6: pagination -/

/-- C5: the pages 1 .. ceil(itemCount / itemsPerPage) concatenate back to
the whole list, the page sizes sum to the item count, a nonempty list has
a last page of size between 1 and itemsPerPage, and 12 items at 10 per
page give 2 pages holding items 1-10 and 11-12. -/
theorem pagination_partition {α : Type} (items : List α) :
    (pages items).flatten = items ∧
    ((pages items).map List.length).sum = items.length ∧
    (0 < items.length →
      1 ≤ (getItemsForPage items ((pageCount items.length : Nat) : Int)).length ∧
      (getItemsForPage items ((pageCount items.length : Nat) : Int)).length ≤ itemsPerPage) ∧
    pageCount 12 = 2 ∧
    getItemsForPage (List.range 12) 1 = List.range 10 ∧
    getItemsForPage (List.range 12) 2 = [10, 11] := by
  have hj := pages_join items.length items rfl
  refine ⟨hj, ?_, ?_, by decide, by decide, by decide⟩
  · rw [← List.length_flatten, hj]
  · intro hpos
    have hpc1 : 1 ≤ pageCount items.length := by
      simp only [pageCount, itemsPerPage]
      omega
    rw [getItemsForPage_pos items ((pageCount items.length : Nat) : Int) (by omega)]
    rw [List.length_take, List.length_drop]
    have htn : ((pageCount items.length : Nat) : Int).toNat = pageCount items.length := by
      omega
    rw [htn]
    simp only [pageCount, itemsPerPage]
    omega

/-- C5 witness: the partition statements evaluated on a 12-element list. -/
theorem pagination_partition_witness :
    (pages (List.range 12)).flatten = List.range 12 ∧
    1 ≤ (getItemsForPage (List.range 12)
          ((pageCount (List.range 12).length : Nat) : Int)).length :=
  ⟨(pagination_partition (List.range 12)).1,
   ((pagination_partition (List.range 12)).2.2.1 (by decide)).1⟩

/-- C6 (amended): for page ≥ 1 the result is the slice
`[(page-1)*itemsPerPage, page*itemsPerPage)`; page 0 and pages past the
last page yield the empty slice; a negative page, however, can yield a
nonempty slice through the negative-index semantics of
`Array.prototype.slice`. -/
theorem getItemsForPage_bounds {α : Type} (items : List α) (page : Int) :
    (1 ≤ page → getItemsForPage items page
        = (items.drop ((page.toNat - 1) * itemsPerPage)).take itemsPerPage) ∧
    (page = 0 → getItemsForPage items page = []) ∧
    (1 ≤ page → (items.length : Int) ≤ (page - 1) * (itemsPerPage : Int) →
        getItemsForPage items page = []) := by
  refine ⟨fun h => getItemsForPage_pos items page h, ?_, ?_⟩
  · rintro rfl
    simp only [getItemsForPage, jsSlice, itemsPerPage]
    norm_num
  · intro h1 h2
    rw [getItemsForPage_pos items page h1]
    have hle : items.length ≤ (page.toNat - 1) * itemsPerPage := by
      simp only [itemsPerPage] at *
      omega
    rw [List.drop_eq_nil_of_le hle]
    exact List.take_nil

/-- C6 witness: page 3 and page 0 of a 12-element list are empty, page 2
is the tail slice. -/
theorem getItemsForPage_bounds_witness :
    getItemsForPage (List.range 12) 3 = ([] : List Nat) ∧
    getItemsForPage (List.range 12) 0 = ([] : List Nat) :=
  ⟨(getItemsForPage_bounds (List.range 12) 3).2.2 (by norm_num) (by decide),
   (getItemsForPage_bounds (List.range 12) 0).2.1 rfl⟩

/-- C6 counterexample: page -1 of a 12-element list is not empty: the
JavaScript slice bounds (-20, -10) select the first two elements. -/
theorem getItemsForPage_negative_counterexample :
    getItemsForPage (List.range 12) (-1) = [0, 1] ∧
    (-1 : Int) < 1 ∧
    getItemsForPage (List.range 12) (-1) ≠ ([] : List Nat) := by
  refine ⟨by decide, by decide, by decide⟩


end PawsTails
